import Mathlib

/-!
Verification of the sutext/go-suid identifier library.

The development shallowly embeds the core of `suid.go`, `guid.go` and the
`GUID` variant file (`New`/`decodeFrom`) into Lean:

* Go `int64` values are modelled as `Int`; Go's arithmetic right shift
  `>> k` is floor division (`Int./` with a positive power-of-two divisor,
  which Lean evaluates as Euclidean = floor division), Go `& mask` for a
  non-negative power-of-two mask is `% 2^k` (the low bits of the two's
  complement representation), and overflowing `int64` arithmetic is made
  explicit with `wrap64`.
* Go `byte`/`uint8` values are modelled as `Nat` with every operation
  reduced `% 256` exactly where Go truncates to a byte.
* Go's bitwise `|` and `&` on `Nat` are kept as `|||` and `&&&`.
* fallible Go functions (`decode`, `decodeGUID`) return `Except String _`;
  `decodeGUID` also returns the final state of its caller-visible input
  buffer, because the Go code overwrites `d` in place while scanning.
* `NewGUID`'s group check can `panic`; its outcome is `GoCall GUID`
  (ordinary return vs. panic).
-/

namespace GoSuid

/-- Two's-complement wrap-around of an `int64` arithmetic result:
the representative of `x` modulo `2^64` lying in `[-2^63, 2^63)`. -/
def wrap64 (x : Int) : Int := (x + 2 ^ 63) % 2 ^ 64 - 2 ^ 63

/-- `suid.go`: `_ENCODE = "abcdefghijklmnopqrstuvwxyz123456"`, as byte values
(`a..z` = 97..122, `1..6` = 49..54). -/
def _ENCODE : List Nat :=
  [97, 98, 99, 100, 101, 102, 103, 104, 105, 106, 107, 108, 109,
   110, 111, 112, 113, 114, 115, 116, 117, 118, 119, 120, 121, 122,
   49, 50, 51, 52, 53, 54]

/-- `suid.go` `init`: `_DECODE[_ENCODE[i]] = byte(i)`.  The map sends a byte
to its (unique) index in `_ENCODE`, and is undefined off the alphabet. -/
def decodeChar (c : Nat) : Option Nat := List.findIdx? (fun x => x == c) _ENCODE

/-- `suid.go`: `MAX_HOST int64 = 0xff`. -/
def MAX_HOST : Int := 0xff
/-- `suid.go`: `MAX_SEQ int64 = 0x3fffff`. -/
def MAX_SEQ : Int := 0x3fffff
/-- `suid.go`: `MAX_TIME int64 = 0x1ffffffff`. -/
def MAX_TIME : Int := 0x1ffffffff

/-- `suid.go` `bitWidth`: the number of binary digits of `max`
(`strconv.FormatInt(max, 2)` has one rune per binary digit). -/
def bitWidth (max : Int) : Nat := (Nat.toDigits 2 max.toNat).length

/-- `suid.go`: `_WID_SEQ = bitWidth(MAX_SEQ)` (= 22). -/
def _WID_SEQ : Nat := bitWidth MAX_SEQ
/-- `suid.go`: `_WID_HOST = bitWidth(MAX_HOST)` (= 8). -/
def _WID_HOST : Nat := bitWidth MAX_HOST

/-- The value packed by `suid.go` `New`:
`thisTime<<(_WID_SEQ+_WID_HOST) | seq<<_WID_HOST | _HOST_ID`.
The three operands occupy disjoint bit ranges whenever
`0 ≤ seq ≤ MAX_SEQ` and `0 ≤ host ≤ MAX_HOST` (always true for the values
`New` feeds in), so the bitwise ors are addition; the `int64` shift
wraps, made explicit by `wrap64`. -/
def suidPack (t seq host : Int) : Int :=
  wrap64 (t * 2 ^ (_WID_SEQ + _WID_HOST) + seq * 2 ^ _WID_HOST + host)

/-- `suid.go` `New`: `seq := _SEQ.Add(1); seq = seq % MAX_SEQ` (Go `%` is
truncated division remainder, `Int.tmod`). `counter` is the value returned
by the atomic `Add`. -/
def suidSeqReduce (counter : Int) : Int := Int.tmod counter MAX_SEQ

/-- `suid.go` `New` as a function of the clock reading, the post-increment
counter value, and the cached `_HOST_ID`. -/
def suidNew (t counter host : Int) : Int := suidPack t (suidSeqReduce counter) host

/-- `suid.go` `Seq()`: `s.value >> _WID_HOST & MAX_SEQ`
(mask of the low 22 bits = `% (MAX_SEQ+1)`). -/
def suidSeq (v : Int) : Int := (v / 2 ^ _WID_HOST) % (MAX_SEQ + 1)

/-- `suid.go` `Host()`: `s.value & MAX_HOST` (low 8 bits = `% (MAX_HOST+1)`). -/
def suidHost (v : Int) : Int := v % (MAX_HOST + 1)

/-- `suid.go` `Time()`: `s.value >> (_WID_SEQ+_WID_HOST) & MAX_TIME`. -/
def suidTime (v : Int) : Int := (v / 2 ^ (_WID_SEQ + _WID_HOST)) % (MAX_TIME + 1)

/-- The loop of `suid.go` `encode`: `for j := 12; j >= 0; j-- {
bytes[j] = _ENCODE[i&0x1f]; i >>= 5 }` — position `n` receives the digit of
the current `i`, earlier positions receive digits of `i >> 5`. -/
def encodeLoop (i : Int) : Nat → List Nat
  | 0 => []
  | n + 1 => encodeLoop (i / 32) n ++ [_ENCODE.getD (i % 32).toNat 0]

/-- `suid.go` `encode`: 13 base-32 characters, most significant first. -/
def encode (i : Int) : List Nat := encodeLoop i 13

/-- The loop of `suid.go` `decode`: `value = (value << 5) | int64(idx)`.
The `int64` shift wraps modulo `2^64` and the or fills the five zeroed
low bits with `idx < 32`, so one step is `wrap64 (value*32 + idx)`. -/
def decodeLoop (value : Int) : List Nat → Except String Int
  | [] => .ok value
  | c :: rest =>
    match decodeChar c with
    | none => .error "invalid character in suid string"
    | some idx => decodeLoop (wrap64 (value * 32 + idx)) rest

/-- `suid.go` `decode`: length check, then the accumulation loop. -/
def decode (data : List Nat) : Except String Int :=
  if data.length = 13 then decodeLoop 0 data
  else .error "invalid suid string length"

/-- Byte-lexicographic strict order on byte strings (Go `string` compare). -/
def lexLt : List Nat → List Nat → Bool
  | [], [] => false
  | [], _ :: _ => true
  | _ :: _, [] => false
  | a :: as, b :: bs => a < b || (a == b && lexLt as bs)

/-- `guid.go`: a `GUID` is a `[10]byte`; each field is a byte value. -/
structure GUID where
  b0 : Nat
  b1 : Nat
  b2 : Nat
  b3 : Nat
  b4 : Nat
  b5 : Nat
  b6 : Nat
  b7 : Nat
  b8 : Nat
  b9 : Nat
deriving DecidableEq, Repr

/-- All ten entries are bytes. -/
def guidWF (u : GUID) : Prop :=
  u.b0 < 256 ∧ u.b1 < 256 ∧ u.b2 < 256 ∧ u.b3 < 256 ∧ u.b4 < 256 ∧
  u.b5 < 256 ∧ u.b6 < 256 ∧ u.b7 < 256 ∧ u.b8 < 256 ∧ u.b9 < 256

instance (u : GUID) : Decidable (guidWF u) := by unfold guidWF; infer_instance

/-- `MAX_GROUP int64 = 0x7` (3 bits), the constant `guid.go` checks
`g > uint8(MAX_GROUP)` against. -/
def MAX_GROUP : Int := 0x7

/-- `guid.go`: `_max_seq int64 = 0x1ffff`. -/
def _max_seq : Int := 0x1ffff

/-- `guid.go` `NewGUID`: `seq := _seq.Add(1) % _max_seq` (Go truncated `%`). -/
def guidSeqReduce (counter : Int) : Int := Int.tmod counter _max_seq

/-- The byte assignments of `guid.go` `NewGUID` (after the group check):
`t` is `time.Now().UnixMicro()` and `seq` the reduced counter, both
non-negative `int64` values, modelled as `Nat`; `host` is the cached
`_HOST_ID` (a value of `suid.go` `getHostID`, always in `0..255`).
`byte(x)` is `% 256`; `time >> k` on a non-negative `int64` is `>>> k`. -/
def packGUID (g : Nat) (t : Nat) (seq : Nat) (host : Nat) : GUID where
  b0 := ((g <<< 5) % 256) ||| ((t >>> 48) % 256 &&& 0x1f)
  b1 := (t >>> 40) % 256
  b2 := (t >>> 32) % 256
  b3 := (t >>> 24) % 256
  b4 := (t >>> 16) % 256
  b5 := (t >>> 8) % 256
  b6 := t % 256
  b7 := (seq >>> 9) % 256
  b8 := (seq >>> 1) % 256
  b9 := (((seq <<< 7) &&& 0x80) ||| host) % 256

/-- Outcome of calling a Go function that either returns normally or
panics. -/
inductive GoCall (α : Type) where
  | ok : α → GoCall α
  | panicked : String → GoCall α
deriving DecidableEq, Repr

/-- `guid.go` `NewGUID(group ...uint8)`: `g` defaults to 0, an out-of-range
group panics (`fmt.Sprintf("[SUID] Invalid input group: %d", g)`), otherwise
the bytes are packed. -/
def NewGUID (group : List Nat) (t : Nat) (counter : Int) (host : Nat) : GoCall GUID :=
  let g := group.headD 0
  if MAX_GROUP.toNat < g then
    .panicked ("[SUID] Invalid input group: " ++ toString g)
  else
    .ok (packGUID g t (guidSeqReduce counter).toNat host)

/-- `guid.go` `Group()`: `s[0] >> 5`. -/
def guidGroup (u : GUID) : Nat := u.b0 >>> 5

/-- `guid.go` `HostID()`: `int64(s[9] & 0x7f)`. -/
def guidHostID (u : GUID) : Nat := u.b9 &&& 0x7f

/-- `guid.go` `Seq()`: `int64(s[7])<<9 | int64(s[8])<<1 | int64(s[9])>>7`
(no `int64` overflow possible for byte operands). -/
def guidSeq (u : GUID) : Nat := (u.b7 <<< 9) ||| (u.b8 <<< 1) ||| (u.b9 >>> 7)

/-- `guid.go` `Time()`:
`int64(s[6]) | int64(s[5])<<8 | ... | int64(s[0]&0x1f)<<48`. -/
def guidTime (u : GUID) : Nat :=
  u.b6 ||| (u.b5 <<< 8) ||| (u.b4 <<< 16) ||| (u.b3 <<< 24) |||
  (u.b2 <<< 32) ||| (u.b1 <<< 40) ||| ((u.b0 &&& 0x1f) <<< 48)

/-- `guid.go` `encodeGUID`: 16 characters, each indexing `_ENCODE` with a
5-bit slice of the 80-bit value; byte shifts truncate (`% 256`). -/
def encodeGUID (u : GUID) : List Nat :=
  [_ENCODE.getD (u.b0 >>> 3) 0,
   _ENCODE.getD (((u.b0 <<< 2) % 256 &&& 0x1f) ||| (u.b1 >>> 6)) 0,
   _ENCODE.getD ((u.b1 >>> 1) &&& 0x1f) 0,
   _ENCODE.getD (((u.b1 <<< 4) % 256 &&& 0x1f) ||| (u.b2 >>> 4)) 0,
   _ENCODE.getD (((u.b2 <<< 1) % 256 &&& 0x1f) ||| (u.b3 >>> 7)) 0,
   _ENCODE.getD ((u.b3 >>> 2) &&& 0x1f) 0,
   _ENCODE.getD (((u.b3 <<< 3) % 256 &&& 0x1f) ||| (u.b4 >>> 5)) 0,
   _ENCODE.getD (u.b4 &&& 0x1f) 0,
   _ENCODE.getD (u.b5 >>> 3) 0,
   _ENCODE.getD (((u.b5 <<< 2) % 256 &&& 0x1f) ||| (u.b6 >>> 6)) 0,
   _ENCODE.getD ((u.b6 >>> 1) &&& 0x1f) 0,
   _ENCODE.getD (((u.b6 <<< 4) % 256 &&& 0x1f) ||| (u.b7 >>> 4)) 0,
   _ENCODE.getD (((u.b7 <<< 1) % 256 &&& 0x1f) ||| (u.b8 >>> 7)) 0,
   _ENCODE.getD ((u.b8 >>> 2) &&& 0x1f) 0,
   _ENCODE.getD (((u.b8 <<< 3) % 256 &&& 0x1f) ||| (u.b9 >>> 5)) 0,
   _ENCODE.getD (u.b9 &&& 0x1f) 0]

/-- The validation loop of `guid.go` `decodeGUID`: each byte is looked up in
`_DECODE` and overwritten in place by its index; the loop stops at the first
invalid byte, leaving it and everything after it untouched.  Returns the
final buffer and whether the scan completed. -/
def decodeScan : List Nat → List Nat × Bool
  | [] => ([], true)
  | c :: rest =>
    match decodeChar c with
    | none => (c :: rest, false)
    | some idx =>
      let r := decodeScan rest
      (idx :: r.1, r.2)

/-- The byte reassembly of `guid.go` `decodeGUID` from the overwritten
buffer of 5-bit indices (byte shifts truncate `% 256`). -/
def reassembleGUID (d : List Nat) : GUID :=
  let n := fun i => d.getD i 0
  { b0 := ((n 0 <<< 3) % 256) ||| (n 1 >>> 2)
    b1 := ((n 1 <<< 6) % 256) ||| ((n 2 <<< 1) % 256) ||| (n 3 >>> 4)
    b2 := ((n 3 <<< 4) % 256) ||| (n 4 >>> 1)
    b3 := ((n 4 <<< 7) % 256) ||| ((n 5 <<< 2) % 256) ||| (n 6 >>> 3)
    b4 := ((n 6 <<< 5) % 256) ||| n 7
    b5 := ((n 8 <<< 3) % 256) ||| (n 9 >>> 2)
    b6 := ((n 9 <<< 6) % 256) ||| ((n 10 <<< 1) % 256) ||| (n 11 >>> 4)
    b7 := ((n 11 <<< 4) % 256) ||| (n 12 >>> 1)
    b8 := ((n 12 <<< 7) % 256) ||| ((n 13 <<< 2) % 256) ||| (n 14 >>> 3)
    b9 := ((n 14 <<< 5) % 256) ||| n 15 }

/-- `guid.go` `decodeGUID`: length check, in-place validation scan, then
reassembly.  The first component is the final state of the caller's
buffer `d`. -/
def decodeGUID (d : List Nat) : List Nat × Except String GUID :=
  if d.length = 16 then
    match decodeScan d with
    | (d2, true) => (d2, .ok (reassembleGUID d2))
    | (d2, false) => (d2, .error "invalid character in uuid string")
  else (d, .error "invalid suid string length")

/-! ### Generic helper lemmas -/

instance {ε α : Type} [DecidableEq ε] [DecidableEq α] : DecidableEq (Except ε α) := fun x y =>
  match x, y with
  | .ok a, .ok b =>
    if h : a = b then .isTrue (by rw [h]) else .isFalse (by intro hc; injection hc; exact h ‹_›)
  | .error a, .error b =>
    if h : a = b then .isTrue (by rw [h]) else .isFalse (by intro hc; injection hc; exact h ‹_›)
  | .ok _, .error _ => .isFalse (by intro hc; cases hc)
  | .error _, .ok _ => .isFalse (by intro hc; cases hc)

/-- A bitwise or of operands with disjoint bit ranges is addition. -/
theorem orDisj {i a b : Nat} (ha : a % 2 ^ i = 0) (hb : b < 2 ^ i) : a ||| b = a + b := by
  obtain ⟨c, hc⟩ := Nat.dvd_of_mod_eq_zero ha
  subst hc
  exact (Nat.mul_add_lt_is_or hb c).symm

theorem or1 {a b : Nat} (ha : a % 2 = 0) (hb : b < 2) : a ||| b = a + b := orDisj (i := 1) ha hb

theorem or2 {a b : Nat} (ha : a % 4 = 0) (hb : b < 4) : a ||| b = a + b := orDisj (i := 2) ha hb

theorem or3 {a b : Nat} (ha : a % 8 = 0) (hb : b < 8) : a ||| b = a + b := orDisj (i := 3) ha hb

theorem or4 {a b : Nat} (ha : a % 16 = 0) (hb : b < 16) : a ||| b = a + b := orDisj (i := 4) ha hb

theorem or5 {a b : Nat} (ha : a % 32 = 0) (hb : b < 32) : a ||| b = a + b := orDisj (i := 5) ha hb

theorem or6 {a b : Nat} (ha : a % 64 = 0) (hb : b < 64) : a ||| b = a + b := orDisj (i := 6) ha hb

theorem or7 {a b : Nat} (ha : a % 128 = 0) (hb : b < 128) : a ||| b = a + b := orDisj (i := 7) ha hb

theorem or9 {a b : Nat} (ha : a % 512 = 0) (hb : b < 512) : a ||| b = a + b := orDisj (i := 9) ha hb

theorem orR8 {a b : Nat} (ha : a < 256) (hb : b % 256 = 0) : a ||| b = a + b := by
  rw [Nat.or_comm, orDisj (i := 8) hb ha, Nat.add_comm]

theorem orR16 {a b : Nat} (ha : a < 65536) (hb : b % 65536 = 0) : a ||| b = a + b := by
  rw [Nat.or_comm, orDisj (i := 16) hb ha, Nat.add_comm]

theorem orR24 {a b : Nat} (ha : a < 16777216) (hb : b % 16777216 = 0) : a ||| b = a + b := by
  rw [Nat.or_comm, orDisj (i := 24) hb ha, Nat.add_comm]

theorem orR32 {a b : Nat} (ha : a < 4294967296) (hb : b % 4294967296 = 0) : a ||| b = a + b := by
  rw [Nat.or_comm, orDisj (i := 32) hb ha, Nat.add_comm]

theorem orR40 {a b : Nat} (ha : a < 1099511627776) (hb : b % 1099511627776 = 0) :
    a ||| b = a + b := by
  rw [Nat.or_comm, orDisj (i := 40) hb ha, Nat.add_comm]

theorem orR48 {a b : Nat} (ha : a < 281474976710656) (hb : b % 281474976710656 = 0) :
    a ||| b = a + b := by
  rw [Nat.or_comm, orDisj (i := 48) hb ha, Nat.add_comm]

theorem and31 (x : Nat) : x &&& 31 = x % 32 := Nat.and_pow_two_sub_one_eq_mod x 5

theorem and127 (x : Nat) : x &&& 127 = x % 128 := Nat.and_pow_two_sub_one_eq_mod x 7

/-- Extracting bit 7 with a mask, arithmetically. -/
theorem and128 (x : Nat) : x &&& 128 = x / 128 % 2 * 128 := by
  have h := Nat.and_two_pow x 7
  rw [Nat.testBit_to_div_mod] at h
  norm_num at h
  rcases Nat.mod_two_eq_zero_or_one (x / 128) with hx | hx <;> simp [hx] at h <;> omega

theorem wid_seq : _WID_SEQ = 22 := by decide

theorem wid_host : _WID_HOST = 8 := by decide

theorem wrap64_congr (x m : Int) : wrap64 (x + 2 ^ 64 * m) = wrap64 x := by
  unfold wrap64; omega

theorem wrap64_bounds (x : Int) : -2 ^ 63 ≤ wrap64 x ∧ wrap64 x < 2 ^ 63 := by
  unfold wrap64; omega

theorem wrap64_fixed {x : Int} (h1 : -2 ^ 63 ≤ x) (h2 : x < 2 ^ 63) : wrap64 x = x := by
  unfold wrap64; omega

theorem wrap64_decomp (x : Int) : ∃ m, wrap64 x = x + 2 ^ 64 * m :=
  ⟨-((x + 2 ^ 63) / 2 ^ 64), by unfold wrap64; rw [Int.emod_def]; ring⟩

/-- Splitting a remainder: the base-32 digits of `i` below `32 * A` are the
last digit of `i` preceded by the digits of `i / 32` below `A`. -/
theorem emod_mul_decomp (i A : Int) (hA : 0 < A) :
    (i / 32 % A) * 32 + i % 32 = i % (32 * A) := by
  have hpos : (0 : Int) < 32 * A := by positivity
  have h1 : 0 ≤ i % (32 * A) := Int.emod_nonneg _ (by omega)
  have h2 : i % (32 * A) < 32 * A := Int.emod_lt_of_pos _ hpos
  have hi : 32 * A * (i / (32 * A)) + i % (32 * A) = i := Int.ediv_add_emod i (32 * A)
  set Q := i / (32 * A) with hQ
  set r := i % (32 * A) with hr
  have hdiv : i / 32 = r / 32 + A * Q := by
    conv_lhs => rw [← hi]
    rw [show 32 * A * Q + r = r + 32 * (A * Q) by ring,
      Int.add_mul_ediv_left r (A * Q) (by norm_num)]
  have hmod32 : i % 32 = r % 32 := by
    conv_lhs => rw [← hi]
    rw [show 32 * A * Q + r = r + 32 * (A * Q) by ring, Int.add_mul_emod_self_left]
  have hq : i / 32 % A = r / 32 := by
    rw [hdiv, Int.add_mul_emod_self_left]
    refine Int.emod_eq_of_lt (Int.ediv_nonneg h1 (by norm_num)) ?_
    rw [Int.ediv_lt_iff_lt_mul (by norm_num)]
    omega
  rw [hq, hmod32]
  omega

/-! ### The SUID text codec, digit by digit -/

/-- The 5-bit digits produced by the `encode` loop, before the alphabet
lookup. -/
def digitsLoop (i : Int) : Nat → List Nat
  | 0 => []
  | n + 1 => digitsLoop (i / 32) n ++ [(i % 32).toNat]

/-- The value of a most-significant-first base-32 digit string. -/
def valDigits : List Nat → Int
  | [] => 0
  | d :: ds => (d : Int) * 32 ^ ds.length + valDigits ds

/-- The pure accumulation loop of `decode`, on digits. -/
def foldWrap (acc : Int) : List Nat → Int
  | [] => acc
  | d :: ds => foldWrap (wrap64 (acc * 32 + (d : Int))) ds

theorem encodeLoop_eq_map (n : Nat) : ∀ i : Int,
    encodeLoop i n = (digitsLoop i n).map (fun d => _ENCODE.getD d 0) := by
  induction n with
  | zero => intro i; rfl
  | succ n ih => intro i; simp [encodeLoop, digitsLoop, ih]

theorem digitsLoop_length (n : Nat) : ∀ i : Int, (digitsLoop i n).length = n := by
  induction n with
  | zero => intro i; rfl
  | succ n ih => intro i; simp [digitsLoop, ih]

theorem digitsLoop_lt (n : Nat) : ∀ i : Int, ∀ d ∈ digitsLoop i n, d < 32 := by
  induction n with
  | zero => intro i d hd; simp [digitsLoop] at hd
  | succ n ih =>
    intro i d hd
    simp only [digitsLoop, List.mem_append, List.mem_singleton] at hd
    rcases hd with hd | hd
    · exact ih _ d hd
    · subst hd
      have h1 : 0 ≤ i % 32 := Int.emod_nonneg i (by norm_num)
      have h2 : i % 32 < 32 := Int.emod_lt_of_pos i (by norm_num)
      omega

theorem valDigits_append (xs : List Nat) (d : Nat) :
    valDigits (xs ++ [d]) = valDigits xs * 32 + (d : Int) := by
  induction xs with
  | nil => simp [valDigits]
  | cons x xs ih =>
    simp only [List.cons_append, valDigits, ih, List.append_eq, List.length_append,
      List.length_cons, List.length_nil]
    ring

theorem valDigits_digitsLoop (n : Nat) : ∀ i : Int,
    valDigits (digitsLoop i n) = i % 32 ^ n := by
  induction n with
  | zero => intro i; simp [digitsLoop, valDigits, Int.emod_one]
  | succ n ih =>
    intro i
    rw [digitsLoop, valDigits_append, ih,
      Int.toNat_of_nonneg (Int.emod_nonneg i (by norm_num)),
      emod_mul_decomp i (32 ^ n) (by positivity), pow_succ]
    ring_nf

/-- The alphabet inverts its own indexing: looking up the character at a
valid index recovers the index. -/
theorem decodeChar_enc : ∀ d : Nat, d < 32 → decodeChar (_ENCODE.getD d 0) = some d := by
  decide

theorem decodeLoop_map (ds : List Nat) : ∀ acc : Int, (∀ d ∈ ds, d < 32) →
    decodeLoop acc (ds.map (fun d => _ENCODE.getD d 0)) = .ok (foldWrap acc ds) := by
  induction ds with
  | nil => intro acc _; rfl
  | cons d ds ih =>
    intro acc h
    have hd : d < 32 := h d (by simp)
    simp only [List.map_cons, decodeLoop, decodeChar_enc d hd, foldWrap]
    exact ih _ (fun x hx => h x (by simp [hx]))

theorem foldWrap_spec (ds : List Nat) : ∀ acc : Int, -2 ^ 63 ≤ acc → acc < 2 ^ 63 →
    foldWrap acc ds = wrap64 (acc * 32 ^ ds.length + valDigits ds) := by
  induction ds with
  | nil =>
    intro acc h1 h2
    simp only [foldWrap, valDigits, List.length_nil, pow_zero, mul_one, add_zero]
    exact (wrap64_fixed h1 h2).symm
  | cons d ds ih =>
    intro acc h1 h2
    obtain ⟨m, hm⟩ := wrap64_decomp (acc * 32 + (d : Int))
    have hb := wrap64_bounds (acc * 32 + (d : Int))
    rw [foldWrap, ih _ hb.1 hb.2, hm,
      show (acc * 32 + (d : Int) + 2 ^ 64 * m) * 32 ^ ds.length + valDigits ds
        = (acc * 32 ^ (ds.length + 1) + ((d : Int) * 32 ^ ds.length + valDigits ds))
          + 2 ^ 64 * (m * 32 ^ ds.length) by ring,
      wrap64_congr]
    rfl

/-- Round trip of the SUID text codec at the level of `int64` values:
decoding the 13-character encoding of any `int64` recovers it. -/
theorem suid_codec_roundtrip (v : Int) (h1 : -2 ^ 63 ≤ v) (h2 : v < 2 ^ 63) :
    decode (encode v) = .ok v := by
  have hlen : (encode v).length = 13 := by
    rw [encode, encodeLoop_eq_map, List.length_map, digitsLoop_length]
  rw [decode, if_pos hlen, encode, encodeLoop_eq_map,
    decodeLoop_map _ _ (digitsLoop_lt 13 v),
    foldWrap_spec _ _ (by norm_num) (by norm_num),
    digitsLoop_length, valDigits_digitsLoop]
  have h32 : (32 : Int) ^ 13 = 2 ^ 65 := by norm_num
  rw [h32, zero_mul, zero_add]
  have : wrap64 (v % 2 ^ 65) = v := by unfold wrap64; omega
  rw [this]

/-! ### The GUID codec, digit by digit -/

/-- The sixteen 5-bit indices computed inside `encodeGUID`, before the
alphabet lookup. -/
def encDigits (u : GUID) : List Nat :=
  [u.b0 >>> 3,
   ((u.b0 <<< 2) % 256 &&& 0x1f) ||| (u.b1 >>> 6),
   (u.b1 >>> 1) &&& 0x1f,
   ((u.b1 <<< 4) % 256 &&& 0x1f) ||| (u.b2 >>> 4),
   ((u.b2 <<< 1) % 256 &&& 0x1f) ||| (u.b3 >>> 7),
   (u.b3 >>> 2) &&& 0x1f,
   ((u.b3 <<< 3) % 256 &&& 0x1f) ||| (u.b4 >>> 5),
   u.b4 &&& 0x1f,
   u.b5 >>> 3,
   ((u.b5 <<< 2) % 256 &&& 0x1f) ||| (u.b6 >>> 6),
   (u.b6 >>> 1) &&& 0x1f,
   ((u.b6 <<< 4) % 256 &&& 0x1f) ||| (u.b7 >>> 4),
   ((u.b7 <<< 1) % 256 &&& 0x1f) ||| (u.b8 >>> 7),
   (u.b8 >>> 2) &&& 0x1f,
   ((u.b8 <<< 3) % 256 &&& 0x1f) ||| (u.b9 >>> 5),
   u.b9 &&& 0x1f]

theorem encodeGUID_eq_map (u : GUID) :
    encodeGUID u = (encDigits u).map (fun d => _ENCODE.getD d 0) := rfl

theorem reassembleGUID_list (d0 d1 d2 d3 d4 d5 d6 d7 d8 d9 d10 d11 d12 d13 d14 d15 : Nat) :
    reassembleGUID [d0, d1, d2, d3, d4, d5, d6, d7, d8, d9, d10, d11, d12, d13, d14, d15] =
      { b0 := ((d0 <<< 3) % 256) ||| (d1 >>> 2)
        b1 := ((d1 <<< 6) % 256) ||| ((d2 <<< 1) % 256) ||| (d3 >>> 4)
        b2 := ((d3 <<< 4) % 256) ||| (d4 >>> 1)
        b3 := ((d4 <<< 7) % 256) ||| ((d5 <<< 2) % 256) ||| (d6 >>> 3)
        b4 := ((d6 <<< 5) % 256) ||| d7
        b5 := ((d8 <<< 3) % 256) ||| (d9 >>> 2)
        b6 := ((d9 <<< 6) % 256) ||| ((d10 <<< 1) % 256) ||| (d11 >>> 4)
        b7 := ((d11 <<< 4) % 256) ||| (d12 >>> 1)
        b8 := ((d12 <<< 7) % 256) ||| ((d13 <<< 2) % 256) ||| (d14 >>> 3)
        b9 := ((d14 <<< 5) % 256) ||| d15 } := rfl

theorem encDigits_lt (u : GUID) (h : guidWF u) : ∀ d ∈ encDigits u, d < 32 := by
  obtain ⟨b0, b1, b2, b3, b4, b5, b6, b7, b8, b9⟩ := u
  obtain ⟨h0, h1, h2, h3, h4, h5, h6, h7, h8, h9⟩ := h
  dsimp only at h0 h1 h2 h3 h4 h5 h6 h7 h8 h9
  intro d hd
  dsimp only [encDigits] at hd
  simp only [List.mem_cons, List.not_mem_nil, or_false] at hd
  rcases hd with rfl | rfl | rfl | rfl | rfl | rfl | rfl | rfl | rfl | rfl | rfl | rfl | rfl |
    rfl | rfl | rfl <;>
    · simp (disch := omega) only [and31, Nat.shiftLeft_eq, Nat.shiftRight_eq_div_pow,
        or1, or2, or3, or4]
      omega

theorem decodeScan_map (ds : List Nat) (h : ∀ d ∈ ds, d < 32) :
    decodeScan (ds.map (fun d => _ENCODE.getD d 0)) = (ds, true) := by
  induction ds with
  | nil => rfl
  | cons d ds ih =>
    have hd := h d (by simp)
    simp only [List.map_cons, decodeScan, decodeChar_enc d hd,
      ih (fun x hx => h x (by simp [hx]))]

/-- Reassembling the sixteen 5-bit slices of ten bytes recovers the bytes. -/
theorem reassemble_enc (u : GUID) (h : guidWF u) : reassembleGUID (encDigits u) = u := by
  obtain ⟨b0, b1, b2, b3, b4, b5, b6, b7, b8, b9⟩ := u
  obtain ⟨h0, h1, h2, h3, h4, h5, h6, h7, h8, h9⟩ := h
  dsimp only at h0 h1 h2 h3 h4 h5 h6 h7 h8 h9
  dsimp only [encDigits]
  rw [reassembleGUID_list]
  simp only [GUID.mk.injEq]
  refine ⟨?_, ?_, ?_, ?_, ?_, ?_, ?_, ?_, ?_, ?_⟩ <;>
    · simp (disch := omega) only [and31, Nat.shiftLeft_eq, Nat.shiftRight_eq_div_pow,
        or1, or2, or3, or4, or5, or6, or7]
      omega

/-- Round trip of the GUID text codec: decoding the 16-character encoding of
any 10-byte GUID recovers it. -/
theorem guid_codec_roundtrip (u : GUID) (h : guidWF u) :
    (decodeGUID (encodeGUID u)).2 = .ok u := by
  have hlen : (encodeGUID u).length = 16 := rfl
  rw [decodeGUID, if_pos hlen, encodeGUID_eq_map, decodeScan_map _ (encDigits_lt u h)]
  simp only [reassemble_enc u h]

/-! ### Decode failure and in-place mutation lemmas -/

theorem decodeLoop_err (ds : List Nat) : ∀ acc : Int, (∃ c ∈ ds, decodeChar c = none) →
    decodeLoop acc ds = .error "invalid character in suid string" := by
  induction ds with
  | nil => intro acc h; simp at h
  | cons c rest ih =>
    intro acc h
    cases hdc : decodeChar c with
    | none => simp [decodeLoop, hdc]
    | some v =>
      obtain ⟨x, hx, hnone⟩ := h
      rcases List.mem_cons.mp hx with rfl | hx2
      · rw [hdc] at hnone; cases hnone
      · simp only [decodeLoop, hdc]
        exact ih _ ⟨x, hx2, hnone⟩

theorem decodeScan_allValid (ds : List Nat) (h : ∀ c ∈ ds, (decodeChar c).isSome) :
    decodeScan ds = (ds.map (fun c => (decodeChar c).getD 0), true) := by
  induction ds with
  | nil => rfl
  | cons c rest ih =>
    cases hdc : decodeChar c with
    | none => have := h c (by simp); rw [hdc] at this; cases this
    | some v =>
      simp only [decodeScan, hdc, List.map_cons,
        ih (fun x hx => h x (by simp [hx]))]
      simp [hdc]

theorem decodeScan_split (pre : List Nat) (c : Nat) (post : List Nat)
    (hpre : ∀ x ∈ pre, (decodeChar x).isSome) (hc : decodeChar c = none) :
    decodeScan (pre ++ c :: post)
      = (pre.map (fun x => (decodeChar x).getD 0) ++ c :: post, false) := by
  induction pre with
  | nil => simp [decodeScan, hc]
  | cons x xs ih =>
    cases hdx : decodeChar x with
    | none => have := hpre x (by simp); rw [hdx] at this; cases this
    | some v =>
      simp only [List.cons_append, decodeScan, hdx, List.append_eq, List.map_cons,
        Option.getD_some]
      rw [ih (fun y hy => hpre y (by simp [hy]))]

/-- A successful alphabet lookup yields an index below 32 for a byte that is
at least 49 (`'1'`), so index and byte always differ. -/
theorem decodeChar_some {c v : Nat} (h : decodeChar c = some v) : v < 32 ∧ 49 ≤ c := by
  rw [decodeChar, List.findIdx?_eq_some_iff_getElem] at h
  obtain ⟨hlt, hp, _⟩ := h
  have hlen : _ENCODE.length = 32 := rfl
  have hc : _ENCODE[v] = c := by simpa using hp
  have hall : ∀ j : Fin 32, 49 ≤ _ENCODE.get j := by decide
  have h49 := hall ⟨v, by omega⟩
  rw [List.get_eq_getElem] at h49
  exact ⟨by omega, by rw [← hc]; exact h49⟩

theorem decodeScan_false (ds : List Nat) (h : ∃ c ∈ ds, decodeChar c = none) :
    (decodeScan ds).2 = false := by
  induction ds with
  | nil => simp at h
  | cons c rest ih =>
    cases hdc : decodeChar c with
    | none => simp [decodeScan, hdc]
    | some v =>
      obtain ⟨x, hx, hnone⟩ := h
      rcases List.mem_cons.mp hx with rfl | hx2
      · rw [hdc] at hnone; cases hnone
      · simp only [decodeScan, hdc]
        exact ih ⟨x, hx2, hnone⟩

/-! ### Field extraction from packed values -/

theorem packGUID_fields (g t s host : Nat) (hg : g ≤ 7) (ht : t < 2 ^ 53)
    (hs : s < 2 ^ 17) (hh : host < 2 ^ 7) :
    guidGroup (packGUID g t s host) = g ∧ guidTime (packGUID g t s host) = t ∧
    guidSeq (packGUID g t s host) = s ∧ guidHostID (packGUID g t s host) = host := by
  refine ⟨?_, ?_, ?_, ?_⟩ <;>
    · dsimp only [guidGroup, guidTime, guidSeq, guidHostID, packGUID]
      simp (disch := omega) only [and31, and127, and128, Nat.shiftLeft_eq,
        Nat.shiftRight_eq_div_pow, or1, or2, or3, or4, or5, or6, or7, or9,
        orR8, orR16, orR24, orR32, orR40, orR48]
      omega

/-- The host byte of a packed GUID reads back only its low seven bits,
whatever the cached host id was. -/
theorem packGUID_host_mod (g t s host : Nat) (hh : host ≤ 255) :
    guidHostID (packGUID g t s host) = host % 128 := by
  have hx : (s <<< 7) &&& 128 = s % 2 * 128 := by rw [Nat.shiftLeft_eq, and128]; omega
  dsimp only [guidHostID, packGUID]
  rw [hx]
  have hlt : s % 2 * 128 ||| host < 256 := Nat.or_lt_two_pow (n := 8) (by omega) (by omega)
  rw [Nat.mod_eq_of_lt hlt, Nat.and_distrib_right, and127 host]
  rcases Nat.mod_two_eq_zero_or_one s with hs2 | hs2 <;> rw [hs2]
  · simp
  · have h128 : (1 * 128 : Nat) &&& 127 = 0 := by decide
    rw [h128, Nat.zero_or]

theorem suidSeqReduce_bounds (c : Int) (hc : 0 ≤ c) :
    0 ≤ suidSeqReduce c ∧ suidSeqReduce c < MAX_SEQ := by
  dsimp only [suidSeqReduce, MAX_SEQ]
  rw [Int.tmod_eq_emod hc (by norm_num)]
  omega

theorem suidPack_host (t seq host : Int) (hh1 : 0 ≤ host) (hh2 : host ≤ MAX_HOST) :
    suidHost (suidPack t seq host) = host := by
  dsimp only [MAX_HOST] at hh2
  dsimp only [suidHost, suidPack, wrap64, MAX_HOST]
  rw [wid_seq, wid_host]
  omega

theorem suidPack_seq (t seq host : Int) (hs1 : 0 ≤ seq) (hs2 : seq ≤ MAX_SEQ)
    (hh1 : 0 ≤ host) (hh2 : host ≤ MAX_HOST) : suidSeq (suidPack t seq host) = seq := by
  dsimp only [MAX_SEQ] at hs2
  dsimp only [MAX_HOST] at hh2
  dsimp only [suidSeq, suidPack, wrap64, MAX_SEQ]
  rw [wid_seq, wid_host]
  omega

/-! ### The claims -/

/-- Claim C1: packing the SUID field tuple time=1745400001, sequence=5,
host=3 yields exactly `(1745400001 << 30) | (5 << 8) | 3`, and encoding that
value to its 13-character text form and decoding it back returns that exact
integer. -/
theorem c1_scenarioA :
    suidPack 1745400001 5 3 = ((1745400001 <<< 30) ||| (5 <<< 8) ||| 3 : Nat) ∧
    (encode (suidPack 1745400001 5 3)).length = 13 ∧
    decode (encode (suidPack 1745400001 5 3)) = .ok (suidPack 1745400001 5 3) :=
  ⟨by decide, by decide, by decide⟩

/-- Claim C2: the text codecs round-trip every packed value — every `int64`
SUID value (boundaries included) and every 10-byte GUID decode back from
their encodings. -/
theorem c2_roundtrip :
    (∀ v : Int, -2 ^ 63 ≤ v → v < 2 ^ 63 → decode (encode v) = .ok v) ∧
    (∀ u : GUID, guidWF u → (decodeGUID (encodeGUID u)).2 = .ok u) :=
  ⟨suid_codec_roundtrip, guid_codec_roundtrip⟩

theorem c2_roundtrip_witness :
    decode (encode (-9223372036854775808)) = .ok (-9223372036854775808) ∧
    (decodeGUID (encodeGUID ⟨255, 255, 255, 255, 255, 255, 255, 255, 255, 255⟩)).2
      = .ok ⟨255, 255, 255, 255, 255, 255, 255, 255, 255, 255⟩ :=
  ⟨c2_roundtrip.1 (-9223372036854775808) (by norm_num) (by norm_num),
   c2_roundtrip.2 ⟨255, 255, 255, 255, 255, 255, 255, 255, 255, 255⟩ (by decide)⟩

/-- Claim C3 (as stated, false): the counterexample.  The alphabet is NOT in
ascending byte order — position 25 holds `'z'` (122) while position 26 holds
`'1'` (49) — and consequently the k-sortable guarantee fails: `25 ≤ 26`, yet
the encoding of 26 is strictly lexicographically below the (distinct)
encoding of 25, so `encode 25 ≤ encode 26` in byte order is false. -/
theorem c3_counterexample :
    (25 : Int) ≤ 26 ∧ _ENCODE.getD 25 0 = 122 ∧ _ENCODE.getD 26 0 = 49 ∧
    encode 25 ≠ encode 26 ∧ lexLt (encode 26) (encode 25) = true := by decide

/-- Claim C3, amended: the 32 symbols are distinct, and they ascend in byte
order within the letter block (indices 0–25) and within the digit block
(indices 26–31), but the digit block has strictly smaller byte values than
the letter block, so the alphabet is not in ascending ordinal order overall
and byte-lexicographic order of encodings does not match numeric order. -/
theorem c3_amended :
    _ENCODE.length = 32 ∧ _ENCODE.Nodup ∧
    (∀ i : Fin 32, ∀ j : Fin 32, i.val < j.val → j.val ≤ 25 →
      _ENCODE.getD i.val 0 < _ENCODE.getD j.val 0) ∧
    (∀ i : Fin 32, ∀ j : Fin 32, i.val < j.val → 26 ≤ i.val →
      _ENCODE.getD i.val 0 < _ENCODE.getD j.val 0) ∧
    (∀ i : Fin 32, 26 ≤ i.val → _ENCODE.getD i.val 0 < _ENCODE.getD 0 0) := by decide

/-- Claim C4 (as stated, false): the counterexample.  The counter is reduced
modulo `MAX_SEQ` itself, not `MAX_SEQ + 1`: at counter value 4194303 the
generated SUID carries sequence 0, while reduction modulo `MAX_SEQ + 1`
would give 4194303; the GUID reduction at counter 131071 likewise gives 0,
not `131071 % (0x1ffff + 1)`. -/
theorem c4_counterexample :
    suidSeq (suidNew 0 4194303 0) = 0 ∧ (4194303 : Int) % (MAX_SEQ + 1) = 4194303 ∧
    (0 : Int) ≠ 4194303 ∧
    guidSeqReduce 131071 = 0 ∧ (131071 : Int) % (_max_seq + 1) = 131071 := by decide

/-- Claim C4, amended: the sequence used in each identifier is the counter
reduced modulo max-sequence itself (4194303 for SUID, 131071 for GUID), so
consecutive counter values cycle through `0 .. max-sequence - 1` with period
max-sequence, and the value max-sequence is never emitted; the reduced value
is exactly the sequence field of the generated SUID.  (The fetch-and-add
atomicity itself is a concurrency property outside this embedding.) -/
theorem c4_amended :
    (∀ c : Int, 0 ≤ c →
      suidSeqReduce c = c % MAX_SEQ ∧ 0 ≤ suidSeqReduce c ∧ suidSeqReduce c < MAX_SEQ ∧
      suidSeqReduce (c + MAX_SEQ) = suidSeqReduce c) ∧
    (∀ c : Int, 0 ≤ c →
      guidSeqReduce c = c % _max_seq ∧ 0 ≤ guidSeqReduce c ∧ guidSeqReduce c < _max_seq ∧
      guidSeqReduce (c + _max_seq) = guidSeqReduce c) ∧
    (∀ t c host : Int, 0 ≤ c → 0 ≤ host → host ≤ MAX_HOST →
      suidSeq (suidNew t c host) = suidSeqReduce c) := by
  refine ⟨?_, ?_, ?_⟩
  · intro c hc
    dsimp only [suidSeqReduce, MAX_SEQ]
    rw [Int.tmod_eq_emod hc (by norm_num), Int.tmod_eq_emod (by omega) (by norm_num)]
    omega
  · intro c hc
    dsimp only [guidSeqReduce, _max_seq]
    rw [Int.tmod_eq_emod hc (by norm_num), Int.tmod_eq_emod (by omega) (by norm_num)]
    omega
  · intro t c host hc hh1 hh2
    have hb := suidSeqReduce_bounds c hc
    exact suidPack_seq t (suidSeqReduce c) host hb.1 (le_of_lt hb.2) hh1 hh2

theorem c4_amended_witness :
    (suidSeqReduce 4194303 = 4194303 % MAX_SEQ ∧ 0 ≤ suidSeqReduce 4194303 ∧
      suidSeqReduce 4194303 < MAX_SEQ ∧
      suidSeqReduce (4194303 + MAX_SEQ) = suidSeqReduce 4194303) ∧
    suidSeq (suidNew 1745400001 7 3) = suidSeqReduce 7 :=
  ⟨c4_amended.1 4194303 (by norm_num),
   c4_amended.2.2 1745400001 7 3 (by norm_num) (by norm_num) (by decide)⟩

/-- Claim C5: packing any in-range GUID field tuple (group ≤ 7, time below
2^53 microseconds, sequence below 2^17, host below 2^7) and reading the
fields back through the `Group`, `Time`, `Seq` and `HostID` accessors
returns exactly the original tuple. -/
theorem c5_guid_pack_unpack :
    ∀ g t s host : Nat, g ≤ 7 → t < 2 ^ 53 → s < 2 ^ 17 → host < 2 ^ 7 →
      guidGroup (packGUID g t s host) = g ∧ guidTime (packGUID g t s host) = t ∧
      guidSeq (packGUID g t s host) = s ∧ guidHostID (packGUID g t s host) = host :=
  fun g t s host hg ht hs hh => packGUID_fields g t s host hg ht hs hh

theorem c5_guid_pack_unpack_witness :
    (guidGroup (packGUID 7 9007199254740991 131071 127) = 7 ∧
      guidTime (packGUID 7 9007199254740991 131071 127) = 9007199254740991 ∧
      guidSeq (packGUID 7 9007199254740991 131071 127) = 131071 ∧
      guidHostID (packGUID 7 9007199254740991 131071 127) = 127) ∧
    (guidGroup (packGUID 0 0 0 0) = 0 ∧ guidTime (packGUID 0 0 0 0) = 0 ∧
      guidSeq (packGUID 0 0 0 0) = 0 ∧ guidHostID (packGUID 0 0 0 0) = 0) :=
  ⟨c5_guid_pack_unpack 7 9007199254740991 131071 127 (by norm_num) (by norm_num)
      (by norm_num) (by norm_num),
   c5_guid_pack_unpack 0 0 0 0 (by norm_num) (by norm_num) (by norm_num) (by norm_num)⟩

/-- Claim C6: text decoding validates length and characters first and fails
with a descriptive error, never a partial value: SUID decoding rejects every
input whose length is not 13 and every length-13 input containing an
out-of-alphabet byte; GUID decoding rejects every input whose length is not
16 (in particular 15 or 17) and every length-16 input containing an
out-of-alphabet byte. -/
theorem c6_decode_validation :
    (∀ d : List Nat, d.length ≠ 13 → decode d = .error "invalid suid string length") ∧
    (∀ d : List Nat, ∀ c ∈ d, decodeChar c = none → d.length = 13 →
      decode d = .error "invalid character in suid string") ∧
    (∀ d : List Nat, d.length ≠ 16 → (decodeGUID d).2 = .error "invalid suid string length") ∧
    (∀ d : List Nat, ∀ c ∈ d, decodeChar c = none → d.length = 16 →
      (decodeGUID d).2 = .error "invalid character in uuid string") := by
  refine ⟨?_, ?_, ?_, ?_⟩
  · intro d hd; rw [decode, if_neg hd]
  · intro d c hc hnone hlen
    rw [decode, if_pos hlen]
    exact decodeLoop_err d 0 ⟨c, hc, hnone⟩
  · intro d hd; rw [decodeGUID, if_neg hd]
  · intro d c hc hnone hlen
    rw [decodeGUID, if_pos hlen]
    rcases hsc : decodeScan d with ⟨d2, b⟩
    have hb : b = false := by
      have := decodeScan_false d ⟨c, hc, hnone⟩
      rw [hsc] at this
      exact this
    subst hb
    rfl

theorem c6_decode_validation_witness :
    decode (List.replicate 12 97) = .error "invalid suid string length" ∧
    decode (33 :: List.replicate 12 97) = .error "invalid character in suid string" ∧
    (decodeGUID (List.replicate 15 97)).2 = .error "invalid suid string length" ∧
    (decodeGUID (List.replicate 17 97)).2 = .error "invalid suid string length" ∧
    (decodeGUID (33 :: List.replicate 15 97)).2 = .error "invalid character in uuid string" :=
  ⟨c6_decode_validation.1 (List.replicate 12 97) (by decide),
   c6_decode_validation.2.1 (33 :: List.replicate 12 97) 33 (by decide) (by decide) (by decide),
   c6_decode_validation.2.2.1 (List.replicate 15 97) (by decide),
   c6_decode_validation.2.2.1 (List.replicate 17 97) (by decide),
   c6_decode_validation.2.2.2 (33 :: List.replicate 15 97) 33 (by decide) (by decide)
     (by decide)⟩

/-- Claim C7 (as stated, false): the counterexample.  Constructing a GUID
with group 8 (exceeding the 3-bit capacity, `MAX_GROUP = 7`) does not
surface a typed error result: `NewGUID` panics — the Go function's only
return channel is the GUID itself, and the out-of-range branch aborts via
`panic`. -/
theorem c7_counterexample :
    MAX_GROUP < 8 ∧ NewGUID [8] 0 0 0 = .panicked "[SUID] Invalid input group: 8" := by
  exact ⟨by decide, by decide⟩

/-- Claim C7, amended: an out-of-range group is rejected at call time and
never silently truncated, but the rejection is a panic (process abort
carrying the formatted message), not a typed error result; for every
in-range group the call returns normally, and the group is stored without
truncation (it reads back exactly). -/
theorem c7_amended :
    ∀ g t host : Nat, ∀ c : Int,
      (MAX_GROUP.toNat < g →
        NewGUID [g] t c host = .panicked ("[SUID] Invalid input group: " ++ toString g)) ∧
      (g ≤ MAX_GROUP.toNat →
        NewGUID [g] t c host = .ok (packGUID g t (guidSeqReduce c).toNat host)) ∧
      (g ≤ MAX_GROUP.toNat → t < 2 ^ 53 →
        guidGroup (packGUID g t (guidSeqReduce c).toNat host) = g) := by
  intro g t host c
  refine ⟨?_, ?_, ?_⟩
  · intro hg
    simp only [NewGUID, List.headD_cons]
    rw [if_pos hg]
  · intro hg
    simp only [NewGUID, List.headD_cons]
    rw [if_neg (by omega)]
  · intro hg ht
    rw [show MAX_GROUP.toNat = 7 from rfl] at hg
    dsimp only [guidGroup, packGUID]
    simp (disch := omega) only [and31, Nat.shiftLeft_eq, Nat.shiftRight_eq_div_pow, or5]
    omega

theorem c7_amended_witness :
    NewGUID [9] 0 0 0 = .panicked ("[SUID] Invalid input group: " ++ toString 9) ∧
    NewGUID [3] 5 1 2 = .ok (packGUID 3 5 (guidSeqReduce 1).toNat 2) ∧
    guidGroup (packGUID 3 5 (guidSeqReduce 1).toNat 2) = 3 :=
  ⟨(c7_amended 9 0 0 0).1 (by decide),
   (c7_amended 3 5 2 1).2.1 (by decide),
   (c7_amended 3 5 2 1).2.2 (by decide) (by norm_num)⟩

/-- Claim C8 (as stated, false): the counterexample.  The shared resolver
caches a host id masked to 8 bits (`getHostID` returns `id & MAX_HOST`,
`MAX_HOST = 0xff`), so a cached id of 200 is possible; a GUID packed with
cached host id 200 reads back `HostID() = 72`, not 200. -/
theorem c8_counterexample :
    (200 : Int) ≤ MAX_HOST ∧ guidHostID (packGUID 0 0 0 200) = 72 ∧ (72 : Nat) ≠ 200 := by
  exact ⟨by decide, by decide, by decide⟩

/-- Claim C8, amended: `SUID.Host()` equals the cached host id for every
possible cached value (0..255); `GUID.HostID()` equals the cached host id
reduced modulo 128 — so it equals the cached id exactly when that id is
below 128, the 7-bit bound the GUID layout actually stores. -/
theorem c8_amended :
    (∀ t c host : Int, 0 ≤ c → 0 ≤ host → host ≤ MAX_HOST →
      suidHost (suidNew t c host) = host) ∧
    (∀ g t s host : Nat, host ≤ 255 → guidHostID (packGUID g t s host) = host % 128) := by
  constructor
  · intro t c host hc hh1 hh2
    exact suidPack_host t (suidSeqReduce c) host hh1 hh2
  · exact fun g t s host hh => packGUID_host_mod g t s host hh

theorem c8_amended_witness :
    suidHost (suidNew 1745400001 7 255) = 255 ∧
    guidHostID (packGUID 0 0 0 127) = 127 % 128 :=
  ⟨c8_amended.1 1745400001 7 255 (by norm_num) (by norm_num) (by decide),
   c8_amended.2 0 0 0 127 (by norm_num)⟩

/-- Claim C9: GUID text decoding mutates its 16-byte input buffer in place:
on success every byte is overwritten by its 5-bit alphabet index (all below
32, while every accepted input byte is at least 49, so no byte keeps its
original value); on failure at the first invalid character, every byte
before it has already been overwritten the same way and the invalid byte
and everything after it are untouched. -/
theorem c9_decode_mutates_buffer :
    ∀ d : List Nat, d.length = 16 →
      ((∀ c ∈ d, (decodeChar c).isSome) →
        (decodeGUID d).1 = d.map (fun c => (decodeChar c).getD 0) ∧
        (∀ y ∈ (decodeGUID d).1, y < 32) ∧ (∀ x ∈ d, 49 ≤ x)) ∧
      (∀ pre c post, d = pre ++ c :: post → (∀ x ∈ pre, (decodeChar x).isSome) →
        decodeChar c = none →
        (decodeGUID d).1 = pre.map (fun x => (decodeChar x).getD 0) ++ c :: post ∧
        (∀ y ∈ pre.map (fun x => (decodeChar x).getD 0), y < 32) ∧ (∀ x ∈ pre, 49 ≤ x)) := by
  intro d hlen
  constructor
  · intro hv
    have hbuf : (decodeGUID d).1 = d.map (fun c => (decodeChar c).getD 0) := by
      rw [decodeGUID, if_pos hlen, decodeScan_allValid d hv]
    refine ⟨hbuf, ?_, ?_⟩
    · intro y hy
      rw [hbuf] at hy
      obtain ⟨x, hx, rfl⟩ := List.mem_map.mp hy
      obtain ⟨v, hvx⟩ := Option.isSome_iff_exists.mp (hv x hx)
      rw [hvx]
      simpa using (decodeChar_some hvx).1
    · intro x hx
      obtain ⟨v, hvx⟩ := Option.isSome_iff_exists.mp (hv x hx)
      exact (decodeChar_some hvx).2
  · intro pre c post hsplit hpre hc
    subst hsplit
    have hbuf : (decodeGUID (pre ++ c :: post)).1
        = pre.map (fun x => (decodeChar x).getD 0) ++ c :: post := by
      rw [decodeGUID, if_pos hlen, decodeScan_split pre c post hpre hc]
    refine ⟨hbuf, ?_, ?_⟩
    · intro y hy
      obtain ⟨x, hx, rfl⟩ := List.mem_map.mp hy
      obtain ⟨v, hvx⟩ := Option.isSome_iff_exists.mp (hpre x hx)
      rw [hvx]
      simpa using (decodeChar_some hvx).1
    · intro x hx
      obtain ⟨v, hvx⟩ := Option.isSome_iff_exists.mp (hpre x hx)
      exact (decodeChar_some hvx).2

theorem c9_decode_mutates_buffer_witness :
    (decodeGUID (List.replicate 16 97)).1
      = (List.replicate 16 97).map (fun c => (decodeChar c).getD 0) ∧
    (decodeGUID (97 :: 33 :: List.replicate 14 97)).1
      = [97].map (fun x => (decodeChar x).getD 0) ++ 33 :: List.replicate 14 97 :=
  ⟨((c9_decode_mutates_buffer (List.replicate 16 97) (by decide)).1 (by decide)).1,
   ((c9_decode_mutates_buffer (97 :: 33 :: List.replicate 14 97) (by decide)).2
      [97] 33 (List.replicate 14 97) (by decide) (by decide) (by decide)).1⟩

set_option maxRecDepth 4000 in
/-- Claim C10: SUID decoding is not injective on its accepted domain: the
13 all-`'a'` string and the string starting with `'q'` (5-bit value 16,
differing from `'a'` = 0 by 16) followed by twelve `'a'`s are distinct,
both decode without error to the same value 0, and `encode 0` returns only
the first, so `encode (decode s) ≠ s` for the second. -/
theorem c10_decode_not_injective :
    decode (List.replicate 13 97) = .ok 0 ∧
    decode (113 :: List.replicate 12 97) = .ok 0 ∧
    (List.replicate 13 97 : List Nat) ≠ 113 :: List.replicate 12 97 ∧
    encode 0 = List.replicate 13 97 ∧
    decodeChar 113 = some 16 ∧ decodeChar 97 = some 0 := by
  exact ⟨by decide, by decide, by decide, by decide, by decide, by decide⟩

end GoSuid
